import Mathlib

/-!
Verification development for the `releases` changelog extension
(`releases/__init__.py`).  The Python module is shallowly embedded below:
docutils nodes become the inductive `Node`, the `issue` and `release`
element classes become structures, the mutable `lines` bucket dictionary
becomes an insertion-ordered association list threaded through a step
function, and every fatal `ValueError` / `KeyError` of the source becomes
an `Except Err` result.  All definitions are executable.
-/

set_option maxRecDepth 4096

namespace Releases

/-! ### Python string primitives used by the source -/

/-- `str.split(sep)` for a single-character separator (Python semantics:
splitting the empty string yields `[""]`). -/
def splitAux (c : Char) : List Char → List Char → List String
  | [], acc => [⟨acc.reverse⟩]
  | x :: xs, acc =>
    if x = c then ⟨acc.reverse⟩ :: splitAux c xs [] else splitAux c xs (x :: acc)

def pySplit (s : String) (c : Char) : List String :=
  splitAux c s.data []

/-- `sep.join(parts)`. -/
def pyJoin (sep : String) : List String → String
  | [] => ""
  | [x] => x
  | x :: y :: xs => x ++ sep ++ pyJoin sep (y :: xs)

/-- `str.strip()` (default whitespace stripping). -/
def pyStrip (s : String) : String :=
  ⟨((s.data.dropWhile Char.isWhitespace).reverse.dropWhile Char.isWhitespace).reverse⟩

/-- Old-style `%` formatting restricted to the `%s` / `%%` directives used by
the URI templates of the source. -/
def pyFormatAux (arg : String) : List Char → List Char
  | [] => []
  | '%' :: '%' :: rest => '%' :: pyFormatAux arg rest
  | '%' :: 's' :: rest => arg.data ++ pyFormatAux arg rest
  | ch :: rest => ch :: pyFormatAux arg rest

def pyFormatS (template arg : String) : String :=
  ⟨pyFormatAux arg template.data⟩

/-- `str.capitalize()`. -/
def pyCapitalize (s : String) : String :=
  match s.data with
  | [] => ""
  | ch :: cs => ⟨ch.toUpper :: cs.map Char.toLower⟩

/-! ### `distutils.version.LooseVersion` on dotted numeric strings

`LooseVersion` turns `"1.10"` into `[1, 10]` and compares the integer lists
with Python list comparison (componentwise, shorter prefix is smaller). -/

def digitsToNat (cs : List Char) : Nat :=
  cs.foldl (fun a c => a * 10 + (c.toNat - 48)) 0

def parseVer (s : String) : List Nat :=
  (pySplit s '.').map (fun t => digitsToNat t.data)

/-- Python `<` on integer lists. -/
def verListLt : List Nat → List Nat → Bool
  | [], [] => false
  | [], _ :: _ => true
  | _ :: _, [] => false
  | a :: as, b :: bs => if a < b then true else if b < a then false else verListLt as bs

/-- `LooseVersion(a) >= LooseVersion(b)`. -/
def looseVersionGe (a b : String) : Bool :=
  !(verListLt (parseVer a) (parseVer b))

/-! ### Data model -/

/-- A docutils node, reduced to what the module builds and inspects: ordinary
elements (tag, raw text payload, children) and intermediate issue-reference
nodes, of which `construct_nodes` only ever reads the `nodelist` attribute. -/
inductive Node where
  | elem (tag : String) (text : String) (children : List Node)
  | issueRef (nodelist : List Node)

mutual

def Node.decEq : (a b : Node) → Decidable (a = b)
  | .elem t s cs, .elem t' s' cs' =>
    if h1 : t = t' then
      if h2 : s = s' then
        match Node.decEqList cs cs' with
        | isTrue h3 => isTrue (by rw [h1, h2, h3])
        | isFalse h3 => isFalse (by intro h; injection h; exact h3 (by assumption))
      else isFalse (by intro h; injection h; exact h2 (by assumption))
    else isFalse (by intro h; injection h; exact h1 (by assumption))
  | .elem _ _ _, .issueRef _ => isFalse (fun h => Node.noConfusion h)
  | .issueRef _, .elem _ _ _ => isFalse (fun h => Node.noConfusion h)
  | .issueRef nl, .issueRef nl' =>
    match Node.decEqList nl nl' with
    | isTrue h => isTrue (by rw [h])
    | isFalse h => isFalse (by intro hh; injection hh; exact h (by assumption))

def Node.decEqList : (as bs : List Node) → Decidable (as = bs)
  | [], [] => isTrue rfl
  | [], _ :: _ => isFalse (fun h => List.noConfusion h)
  | _ :: _, [] => isFalse (fun h => List.noConfusion h)
  | a :: as, b :: bs =>
    match Node.decEq a b with
    | isTrue h1 =>
      match Node.decEqList as bs with
      | isTrue h2 => isTrue (by rw [h1, h2])
      | isFalse h2 => isFalse (by intro h; injection h; exact h2 (by assumption))
    | isFalse h1 => isFalse (by intro h; injection h; exact h1 (by assumption))

end

instance : DecidableEq Node := Node.decEq

/-- The `issue` element class: stored attributes with the defaults the
property accessors supply (`type_`, `major`, `backported`, `line`,
`description`, `nodelist`). -/
structure issue where
  number : Option String
  type_ : String
  major : Bool
  backported : Bool
  line : Option String
  description : List Node
  nodelist : List Node
deriving DecidableEq

/-- The `release` element class (`number`, `date`, `nodelist`). -/
structure release where
  number : String
  date : Option String
  nodelist : List Node
deriving DecidableEq

/-- One element of the `releases` output list: the dict
`{'obj': focus, 'entries': entries}`. -/
structure ReleaseEntry where
  obj : release
  entries : List issue
deriving DecidableEq

/-- One changelog line item as `construct_releases` sees it after unwrapping
`obj[0][0]` / `obj[0][1:]`: a release marker (whose `rest`, when present, is
the comma-separated explicit issue list), an issue element with its trailing
description nodes, or a bare non-issue line item. -/
inductive Record where
  | rel (focus : release) (rest : Option String)
  | item (focus : issue) (rest : List Node)
  | plain (focus : Node)
deriving DecidableEq

/-- The sphinx config values the module reads. -/
structure Config where
  releases_issue_uri : String
  releases_release_uri : String


/-- The fatal errors of the module: the two explicit `ValueError`s, plus
`list.remove` on an absent element (`ValueError`) and indexing a missing
bucket (`KeyError`). -/
inductive Err where
  | duplicateIssue (number : String)
  | missingIssues (numbers : List String)
  | removeMissing (bucket : String)
  | keyError (bucket : String)
deriving DecidableEq

instance {ε : Type _} {α : Type _} [DecidableEq ε] [DecidableEq α] : DecidableEq (Except ε α)
  | .error e, .error e' =>
    if h : e = e' then isTrue (by rw [h])
    else isFalse (by intro hh; injection hh; exact h (by assumption))
  | .error _, .ok _ => isFalse (fun h => Except.noConfusion h)
  | .ok _, .error _ => isFalse (fun h => Except.noConfusion h)
  | .ok a, .ok a' =>
    if h : a = a' then isTrue (by rw [h])
    else isFalse (by intro hh; injection hh; exact h (by assumption))

abbrev Lines := List (String × List issue)

/-- The mutable state of `construct_releases`: the output list, the `lines`
bucket dict and the `issues` registry dict (keyed by the possibly-absent
issue number), all insertion-ordered. -/
structure PState where
  releases : List ReleaseEntry
  lines : Lines
  issues : List (Option String × issue)
deriving DecidableEq

/-! ### Node construction helpers of the source -/

def issue_types : List (String × String) :=
  [("bug", "A04040"), ("feature", "40A056"), ("support", "4070A0")]

/-- `issue_nodelist(name, link)`. -/
def issue_nodelist (name : String) (link : Option Node := none) : List Node :=
  let which := "[<span style=\"color: #" ++ ((issue_types.lookup name).getD "")
      ++ ";\">" ++ pyCapitalize name ++ "</span>]"
  let signifier := [Node.elem "raw" which []]
  let hyperlink := match link with
    | some l => [Node.elem "inline" " " [], l]
    | none => []
  let trail := match link with
    | some _ => []
    | none => [Node.elem "inline" " " []]
  signifier ++ hyperlink ++ [Node.elem "inline" ":" []] ++ trail

/-- `release_nodes(text, slug, date, config)`: the section node holding the
raw `<h2>` header. -/
def release_nodes (text slug : String) (date : Option String) (config : Config) : Node :=
  let link := "<a class=\"reference external\" href=\""
      ++ pyFormatS config.releases_release_uri slug ++ "\">" ++ text ++ "</a>"
  let datespan := match date with
    | some d => " <span style=\"font-size: 75%%;\">" ++ d ++ "</span>"
    | none => ""
  let header := "<h2 style=\"margin-bottom: 0.3em;\">" ++ link ++ datespan ++ "</h2>"
  Node.elem "section" "" [Node.elem "raw" header []]

/-- `get_line(obj)`: `1.2.7 -> 1.2`. -/
def get_line (obj : release) : String :=
  pyJoin "." ((pySplit obj.number '.').dropLast)

/-! ### Dictionary / bucket operations -/

def lookupLines : Lines → String → Option (List issue)
  | [], _ => none
  | p :: ps, name => if p.1 = name then some p.2 else lookupLines ps name

def lookupIssues : List (Option String × issue) → Option String → Option issue
  | [], _ => none
  | p :: ps, k => if p.1 = k then some p.2 else lookupIssues ps k

/-- Python dict assignment `lines[name] = v`: overwrite in place if the key
exists, else append a new key. -/
def setBucket (ls : Lines) (name : String) (v : List issue) : Lines :=
  if (lookupLines ls name).isSome then
    ls.map (fun p => if p.1 = name then (p.1, v) else p)
  else
    ls ++ [(name, v)]

/-- Registry assignment `issues[k] = v`. -/
def setIssue (issues : List (Option String × issue)) (k : Option String) (v : issue) :
    List (Option String × issue) :=
  if (lookupIssues issues k).isSome then
    issues.map (fun p => if p.1 = k then (p.1, v) else p)
  else
    issues ++ [(k, v)]

/-- `lines[name].append(x)` for a name known to be a key. -/
def appendTo (ls : Lines) (name : String) (x : issue) : Lines :=
  ls.map (fun p => if p.1 = name then (p.1, p.2 ++ [x]) else p)

/-- `if x in lines[name]: lines[name].remove(x)` — the bucket itself is
indexed unconditionally, so a missing bucket is a `KeyError`. -/
def condRemove (ls : Lines) (name : String) (x : issue) : Except Err Lines :=
  match lookupLines ls name with
  | none => .error (.keyError name)
  | some xs => .ok (if x ∈ xs then setBucket ls name (xs.erase x) else ls)

/-- `if x in lines.get(name, []): lines[name].remove(x)` — never raises. -/
def condRemoveGet (ls : Lines) (name : String) (x : issue) : Lines :=
  match lookupLines ls name with
  | none => ls
  | some xs => if x ∈ xs then setBucket ls name (xs.erase x) else ls

/-- `lines[name].remove(x)`: `KeyError` on a missing bucket, `ValueError`
on a missing element. -/
def removeStrict (ls : Lines) (name : String) (x : issue) : Except Err Lines :=
  match lookupLines ls name with
  | none => .error (.keyError name)
  | some xs =>
    if x ∈ xs then .ok (setBucket ls name (xs.erase x)) else .error (.removeMissing name)

/-- `lines[name]` as an expression. -/
def getBucket (ls : Lines) (name : String) : Except Err (List issue) :=
  match lookupLines ls name with
  | none => .error (.keyError name)
  | some xs => .ok xs

/-! ### The release partitioner -/

/-- Registration: `if focus.number and focus.number in issues: raise ...
else: issues[focus.number] = focus`. -/
def registerIssue (issues : List (Option String × issue)) (focus : issue) :
    Except Err (List (Option String × issue)) :=
  match focus.number with
  | some n =>
    if (lookupIssues issues (some n)).isSome then .error (.duplicateIssue n)
    else .ok (setIssue issues (some n) focus)
  | none => .ok (setIssue issues none focus)

/-- The issue fan-out into buckets (the big entry-classification `else`
branch of `construct_releases`). -/
def classifyIssue (ls : Lines) (focus : issue) : Lines :=
  if focus.type_ = "bug" then
    if focus.major then
      appendTo ls "unreleased_feature" focus
    else
      let bug_lines := (ls.map Prod.fst).filter (fun x => x ≠ "unreleased_feature")
      let bug_lines := match focus.line with
        | some ml =>
          (bug_lines.filter (fun x => x ≠ "unreleased_bugfix" && looseVersionGe x ml))
            ++ ["unreleased_bugfix"]
        | none => bug_lines
      bug_lines.foldl (fun acc nm => appendTo acc nm focus) ls
  else
    if focus.backported then
      (ls.map Prod.fst).foldl (fun acc nm => appendTo acc nm focus) ls
    else
      appendTo ls "unreleased_feature" focus

def processIssue (st : PState) (focus : issue) : Except Err PState := do
  let issues ← registerIssue st.issues focus
  pure ⟨st.releases, classifyIssue st.lines focus, issues⟩

/-- The per-entry bucket cleanup of an explicit release ("Introspect entries
to determine which buckets they should get removed from"). -/
def removeFromBuckets (ls : Lines) (line : String) (obj : issue) : Except Err Lines :=
  if obj.type_ = "bug" then
    if obj.major then
      removeStrict ls "unreleased_feature" obj
    else do
      let ls ← condRemove ls "unreleased_bugfix" obj
      condRemove ls line obj
  else do
    let ls ← removeStrict ls "unreleased_feature" obj
    pure (condRemoveGet ls line obj)

/-- An explicitly-listed release (`if explicit:` branch). -/
def explicitRelease (st : PState) (focus : release) (line : String) (ex : List String) :
    Except Err PState := do
  let missing := ex.filter (fun i => (lookupIssues st.issues (some i)).isNone)
  if missing ≠ [] then
    throw (.missingIssues missing)
  let entries := ex.filterMap (fun i => lookupIssues st.issues (some i))
  let releases := st.releases ++ [⟨focus, entries⟩]
  let ls ← entries.foldlM (fun acc obj => removeFromBuckets acc line obj) st.lines
  pure ⟨releases, ls, st.issues⟩

/-- An implicit release: new-line feature release, or bugfix release on an
existing line. -/
def implicitRelease (st : PState) (focus : release) (line : String) : Except Err PState :=
  if (lookupLines st.lines line).isNone then
    let ls := setBucket st.lines line []
    match lookupLines ls "unreleased_feature" with
    | none => .error (.keyError "unreleased_feature")
    | some unreleased =>
      let entries := unreleased.filter
        (fun x => x.type_ = "feature" || x.type_ = "support" || x.major)
      let releases := st.releases ++ [⟨focus, entries⟩]
      .ok ⟨releases, setBucket ls "unreleased_feature" [], st.issues⟩
  else do
    let bucket ← getBucket st.lines line
    let entries := bucket.filter (fun x => !x.major)
    let releases := st.releases ++ [⟨focus, entries⟩]
    let ls := setBucket st.lines line []
    let ls ← entries.foldlM (fun acc x => condRemove acc "unreleased_bugfix" x) ls
    pure ⟨releases, ls, st.issues⟩

/-- One iteration of the `for obj in reversed(entries)` loop. -/
def processRecord (st : PState) (r : Record) : Except Err PState :=
  match r with
  | .rel focus rest =>
    let line := get_line focus
    let explicit := rest.map (fun s => (pySplit s ',').map pyStrip)
    match explicit with
    | some ex =>
      if ex ≠ [] then explicitRelease st focus line ex else implicitRelease st focus line
    | none => implicitRelease st focus line
  | .item focus rest =>
    processIssue st { focus with description := rest }
  | .plain node =>
    processIssue st
      ⟨none, "bug", false, false, none, [node], issue_nodelist "bug" none⟩

/-- The initial `lines` dict. -/
def initialLines : Lines := [("unreleased_bugfix", []), ("unreleased_feature", [])]

def pInit : PState := ⟨[], initialLines, []⟩

/-- One trailing `'Next %s release'` faux-release. -/
def fauxRelease (config : Config) (which : String) (ls : Lines) : Except Err ReleaseEntry := do
  let nodelist := [release_nodes (pyFormatS "Next %s release" which) "master" none config]
  let line := "unreleased_" ++ which
  let entries ← getBucket ls line
  pure ⟨⟨line, none, nodelist⟩, entries⟩

/-- `construct_releases(entries, app)`: walk the authored (newest-first)
record list back to front, then append the two faux-releases. -/
def construct_releases (config : Config) (entries : List Record) :
    Except Err (List ReleaseEntry) := do
  let st ← entries.reverse.foldlM processRecord pInit
  let bf ← fauxRelease config "bugfix" st.lines
  let ft ← fauxRelease config "feature" st.lines
  pure (st.releases ++ [bf, ft])

/-! ### The output assembler -/

/-- `nodes.Node.deepcopy`: on the immutable values of the embedding a deep
copy produces an equal value. -/
def Node.deepcopy (n : Node) : Node := n

/-- The nested-issue-reference expansion loop:
`for i, node in enumerate(desc[:]): if isinstance(node, issue):
desc[i:i+1] = node['nodelist']` — the enumeration runs over a snapshot of
`desc` while the slice assignment rewrites the live list. -/
def expandIssueRefs (desc : List Node) : List Node :=
  desc.enum.foldl
    (fun acc p =>
      match p.2 with
      | Node.issueRef nl => acc.take p.1 ++ nl ++ acc.drop (p.1 + 1)
      | _ => acc)
    desc

/-- docutils `Element.append`. -/
def appendChildNode : Node → Node → Node
  | Node.elem t s cs, c => Node.elem t s (cs ++ [c])
  | Node.issueRef nl, c => Node.issueRef (nl ++ [c])

/-- The per-entry body of `construct_nodes`: deep-copy the description,
expand nested issue references, and wrap
`list_item('', paragraph('', '', *entry['nodelist'] + desc))`. -/
def assembleEntry (entry : issue) : Node :=
  let desc := entry.description.map Node.deepcopy
  let desc := expandIssueRefs desc
  Node.elem "list_item" "" [Node.elem "paragraph" "" (entry.nodelist ++ desc)]

/-- One iteration of the `for d in reversed(releases)` loop of
`construct_nodes`: skip empty releases, otherwise build the entry list,
append it into `obj['nodelist'][0]`, and extend the result with the
(now updated) `obj['nodelist']` children of the header paragraph. -/
def assembleStep (acc : List Node × List ReleaseEntry) (d : ReleaseEntry) :
    List Node × List ReleaseEntry :=
  if d.entries = [] then
    (acc.1, acc.2 ++ [d])
  else
    let entriesNodes := d.entries.map assembleEntry
    let list_ := Node.elem "bullet_list" "" entriesNodes
    let newNodelist := match d.obj.nodelist with
      | [] => []
      | n0 :: rest => appendChildNode n0 list_ :: rest
    (acc.1 ++ newNodelist, acc.2 ++ [{ d with obj := { d.obj with nodelist := newNodelist } }])

/-- `construct_nodes(releases)`: returns the emitted result nodes together
with the release records as they stand after the loop (the source mutates
`d['obj']['nodelist'][0]` in place; the embedding returns the updated
records). -/
def construct_nodes (releases : List ReleaseEntry) : List Node × List ReleaseEntry :=
  let out := releases.reverse.foldl assembleStep ([], [])
  (out.1, out.2.reverse)

/-- Specification shorthand: what `assembleStep` leaves behind for one
release record (used only by the theorems below, not by the embedding). -/
def assembledRelease (d : ReleaseEntry) : ReleaseEntry :=
  if d.entries = [] then d
  else
    { d with obj := { d.obj with nodelist :=
        match d.obj.nodelist with
        | [] => []
        | n0 :: rest =>
          appendChildNode n0 (Node.elem "bullet_list" "" (d.entries.map assembleEntry)) :: rest } }

/-! ### Predicates used by the theorems -/

/-- Bucket-membership framing: every bucket of `ls` survives into `ls'` and,
outside the set `S` of issues a cleanup pass may touch, membership is
unchanged. -/
def FrameOutside (S : List issue) (ls ls' : Lines) : Prop :=
  ∀ name xs, lookupLines ls name = some xs →
    ∃ xs', lookupLines ls' name = some xs' ∧ ∀ i, i ∉ S → (i ∈ xs' ↔ i ∈ xs)

/-- The partitioner-state invariant of claim C10: no bucket other than
`unreleased_feature` ever holds a `major` issue. -/
def noMajorOutside (ls : Lines) : Prop :=
  ∀ p ∈ ls, p.1 ≠ "unreleased_feature" → ∀ x ∈ p.2, x.major = false

/-- Records producible by `issues_role`: the flag argument is a single
token, so `backported` and `major` are mutually exclusive. -/
def wellFormedRecord : Record → Prop
  | .item focus _ => focus.backported = true → focus.major = false
  | _ => True

/-! ### Concrete fixtures for the scenario theorems and witnesses -/

def sampleConfig : Config :=
  ⟨"https://github.com/u/p/issues/%s", "https://github.com/u/p/tree/%s"⟩

def bug1 : issue :=
  ⟨some "1", "bug", false, false, none, [],
   issue_nodelist "bug" (some (Node.elem "reference" "#1" []))⟩

def rest1 : List Node := [Node.elem "inline" "fix crash" []]

def bug1d : issue := { bug1 with description := rest1 }

def rel10 : release :=
  ⟨"1.0", some "2020-01-01", [release_nodes "1.0" "1.0" (some "2020-01-01") sampleConfig]⟩

def feat2 : issue :=
  ⟨some "2", "feature", false, false, none, [],
   issue_nodelist "feature" (some (Node.elem "reference" "#2" []))⟩

def rest2 : List Node := [Node.elem "inline" "new feature" []]

def feat2d : issue := { feat2 with description := rest2 }

def bug3 : issue :=
  ⟨some "3", "bug", false, false, some "1.0", [],
   issue_nodelist "bug" (some (Node.elem "reference" "#3" []))⟩

def rest3 : List Node := [Node.elem "inline" "fix thing" []]

def bug3d : issue := { bug3 with description := rest3 }

def rel10b : release :=
  ⟨"1.0", some "2020-02-01", [release_nodes "1.0" "1.0" (some "2020-02-01") sampleConfig]⟩

def bug5 : issue :=
  ⟨some "5", "bug", true, false, none, [],
   issue_nodelist "bug" (some (Node.elem "reference" "#5" []))⟩

def rest5 : List Node := [Node.elem "inline" "big bad bug" []]

def bug5d : issue := { bug5 with description := rest5 }

def rel100 : release :=
  ⟨"1.0.0", some "2020-01-01", [release_nodes "1.0.0" "1.0.0" (some "2020-01-01") sampleConfig]⟩

def rel110 : release :=
  ⟨"1.1.0", some "2020-03-01", [release_nodes "1.1.0" "1.1.0" (some "2020-03-01") sampleConfig]⟩

/-- Scenario 1 stream (authored order, newest first): implicit release
"1.0", then bug #1. -/
def s1 : List Record := [Record.rel rel10 none, Record.item bug1 rest1]

/-- Scenario 2 stream: implicit release "1.0", then feature #2. -/
def s2 : List Record := [Record.rel rel10 none, Record.item feat2 rest2]

/-- Scenario 3 stream: second implicit release "1.0", bug #3 (`1.0+`),
first implicit release "1.0", feature #2. -/
def s3 : List Record :=
  [Record.rel rel10b none, Record.item bug3 rest3, Record.rel rel10 none, Record.item feat2 rest2]

/-- Partitioner state after scenario 1. -/
def c3state : PState :=
  ⟨[⟨rel10, []⟩],
   [("unreleased_bugfix", [bug1d]), ("unreleased_feature", []), ("1", [])],
   [(some "1", bug1d)]⟩

/-- Partitioner state after scenario 2. -/
def c4state : PState :=
  ⟨[⟨rel10, [feat2d]⟩],
   [("unreleased_bugfix", []), ("unreleased_feature", []), ("1", [])],
   [(some "2", feat2d)]⟩

/-- Partitioner state after scenario 3. -/
def c5state : PState :=
  ⟨[⟨rel10, [feat2d]⟩, ⟨rel10b, []⟩],
   [("unreleased_bugfix", [bug3d]), ("unreleased_feature", []), ("1", [])],
   [(some "2", feat2d), (some "3", bug3d)]⟩

/-- The trailing faux-release records under `sampleConfig`. -/
def fauxBugfix (entries : List issue) : ReleaseEntry :=
  ⟨⟨"unreleased_bugfix", none,
    [release_nodes (pyFormatS "Next %s release" "bugfix") "master" none sampleConfig]⟩, entries⟩

def fauxFeature (entries : List issue) : ReleaseEntry :=
  ⟨⟨"unreleased_feature", none,
    [release_nodes (pyFormatS "Next %s release" "feature") "master" none sampleConfig]⟩, entries⟩

/-- Fixture nodes for the nested-reference expansion claims. -/
def a1 : Node := Node.elem "emphasis" "alpha one" []
def a2 : Node := Node.elem "emphasis" "alpha two" []
def a3 : Node := Node.elem "emphasis" "alpha three" []
def b1 : Node := Node.elem "strong" "beta one" []
def b2 : Node := Node.elem "strong" "beta two" []
def b3 : Node := Node.elem "strong" "beta three" []
def nlA : List Node := [a1, a2, a3]
def nlB : List Node := [b1, b2, b3]

/-- An entry whose description embeds two nested issue references. -/
def entryC7 : issue :=
  ⟨some "8", "bug", false, false, none,
   [Node.issueRef nlA, Node.issueRef nlB], []⟩

def entryC8 : issue :=
  ⟨some "9", "bug", false, false, none, [a1], issue_nodelist "bug" none⟩

/-- A bucket store with one real line bucket, all buckets empty. -/
def exLines : Lines :=
  [("unreleased_bugfix", []), ("unreleased_feature", []), ("1.1", [])]

/-- Partitioner state just before the release of scenario 2 (feature #2
already filed). -/
def c4pre : PState :=
  ⟨[], [("unreleased_bugfix", []), ("unreleased_feature", [feat2d])], [(some "2", feat2d)]⟩

/-- A state with two real line buckets "1.2" and "1.10". -/
def c2pre : PState :=
  ⟨[],
   [("unreleased_bugfix", []), ("unreleased_feature", [feat2d]), ("1.2", []), ("1.10", [])],
   [(some "2", feat2d)]⟩

/-- A non-major bug constrained to lines `1.3+`. -/
def bug7 : issue :=
  ⟨some "7", "bug", false, false, some "1.3", [],
   issue_nodelist "bug" (some (Node.elem "reference" "#7" []))⟩

def rest7 : List Node := [Node.elem "inline" "fix old line" []]

def bug6 : issue :=
  ⟨some "6", "bug", false, false, none, [],
   issue_nodelist "bug" (some (Node.elem "reference" "#6" []))⟩

def rest6 : List Node := [Node.elem "inline" "fix other thing" []]

def bug6d : issue := { bug6 with description := rest6 }

/-- A state with bug #6 registered, pending in `unreleased_bugfix` and in
line bucket "1". -/
def c6pre : PState :=
  ⟨[], [("unreleased_bugfix", [bug6d]), ("unreleased_feature", []), ("1", [bug6d])],
   [(some "6", bug6d)]⟩

/-- Partitioner state after filing bug #1 from the initial state. -/
def c10post : PState :=
  ⟨[], [("unreleased_bugfix", [bug1d]), ("unreleased_feature", [])], [(some "1", bug1d)]⟩

def relC8 : ReleaseEntry :=
  ⟨⟨"2.0.0", some "2021-01-01",
    [release_nodes "2.0.0" "2.0.0" (some "2021-01-01") sampleConfig]⟩, [entryC8]⟩



/-! ### Association-list lemmas about the bucket store -/

theorem lookupLines_nil (m : String) : lookupLines [] m = none := rfl

theorem lookupLines_cons (p : String × List issue) (ps : Lines) (m : String) :
    lookupLines (p :: ps) m = if p.1 = m then some p.2 else lookupLines ps m := rfl

theorem lookupLines_map_set (ls : Lines) (n : String) (v : List issue) (m : String) :
    lookupLines (ls.map (fun p => if p.1 = n then (p.1, v) else p)) m
      = if m = n then (lookupLines ls n).map (fun _ => v) else lookupLines ls m := by
  induction ls with
  | nil => by_cases h : m = n <;> simp [lookupLines_nil, h]
  | cons p ps ih =>
    by_cases hp : p.1 = n
    · subst hp
      by_cases hm : p.1 = m
      · subst hm
        simp [lookupLines_cons, ih]
      · have hmn : ¬ m = p.1 := fun hh => hm hh.symm
        simp [lookupLines_cons, hm, hmn, ih]
    · by_cases hm : p.1 = m
      · subst hm
        simp [lookupLines_cons, hp, fun hh : p.1 = n => hp hh]
      · simp [lookupLines_cons, hp, hm, ih]

theorem lookupLines_append_one (ls : Lines) (n : String) (v : List issue) (m : String) :
    lookupLines (ls ++ [(n, v)]) m
      = match lookupLines ls m with
        | some xs => some xs
        | none => if n = m then some v else none := by
  induction ls with
  | nil => simp [lookupLines_nil, lookupLines_cons]
  | cons p ps ih => by_cases hp : p.1 = m <;> simp [lookupLines_cons, hp, ih]

theorem lookupLines_setBucket_self (ls : Lines) (n : String) (v : List issue) :
    lookupLines (setBucket ls n v) n = some v := by
  by_cases hs : (lookupLines ls n).isSome
  · simp only [setBucket, if_pos hs]
    rw [lookupLines_map_set]
    cases h : lookupLines ls n with
    | some xs => simp
    | none => rw [h] at hs; simp at hs
  · simp only [setBucket, if_neg hs]
    rw [lookupLines_append_one]
    cases h : lookupLines ls n with
    | some xs => rw [h] at hs; simp at hs
    | none => simp

theorem lookupLines_setBucket_ne (ls : Lines) {n m : String} (v : List issue) (h : m ≠ n) :
    lookupLines (setBucket ls n v) m = lookupLines ls m := by
  by_cases hs : (lookupLines ls n).isSome
  · simp only [setBucket, if_pos hs]
    rw [lookupLines_map_set, if_neg h]
  · simp only [setBucket, if_neg hs]
    rw [lookupLines_append_one]
    cases hm : lookupLines ls m with
    | some xs => simp
    | none => simp only; rw [if_neg (fun hh : n = m => h hh.symm)]

theorem lookupLines_appendTo (ls : Lines) (n : String) (x : issue) (m : String) :
    lookupLines (appendTo ls n x) m
      = if m = n then (lookupLines ls m).map (fun xs => xs ++ [x]) else lookupLines ls m := by
  induction ls with
  | nil => by_cases h : m = n <;> simp [appendTo, lookupLines_nil, h]
  | cons p ps ih =>
    simp only [appendTo, List.map_cons] at ih ⊢
    by_cases hp : p.1 = n
    · subst hp
      by_cases hm : p.1 = m
      · subst hm
        simp [lookupLines_cons, ih]
      · have hmn : ¬ m = p.1 := fun hh => hm hh.symm
        simp [lookupLines_cons, hm, hmn, ih]
    · by_cases hm : p.1 = m
      · subst hm
        simp [lookupLines_cons, hp, fun hh : p.1 = n => hp hh]
      · simp [lookupLines_cons, hp, hm, ih]

theorem appendTo_keys (ls : Lines) (n : String) (x : issue) :
    (appendTo ls n x).map Prod.fst = ls.map Prod.fst := by
  induction ls with
  | nil => rfl
  | cons p ps ih =>
    simp only [appendTo, List.map_cons] at ih ⊢
    by_cases hp : p.1 = n <;> simp [hp, ih]

theorem map_set_keys (ls : Lines) (n : String) (v : List issue) :
    ((ls.map (fun p => if p.1 = n then (p.1, v) else p)).map Prod.fst) = ls.map Prod.fst := by
  induction ls with
  | nil => rfl
  | cons p ps ih => by_cases hp : p.1 = n <;> simp [hp, ih]

theorem setBucket_keys (ls : Lines) (n : String) (v : List issue)
    (hs : (lookupLines ls n).isSome) :
    (setBucket ls n v).map Prod.fst = ls.map Prod.fst := by
  simp only [setBucket, if_pos hs]
  exact map_set_keys ls n v

theorem lookupLines_mem (ls : Lines) {n : String} {xs : List issue}
    (h : lookupLines ls n = some xs) : (n, xs) ∈ ls := by
  induction ls with
  | nil => simp [lookupLines_nil] at h
  | cons p ps ih =>
    by_cases hp : p.1 = n
    · subst hp
      simp [lookupLines_cons] at h
      cases p with
      | mk a b =>
        simp only at h
        subst h
        exact List.mem_cons_self _ _
    · simp [lookupLines_cons, hp] at h
      exact List.mem_cons_of_mem _ (ih h)

theorem mem_keys_of_lookupLines (ls : Lines) {n : String} {xs : List issue}
    (h : lookupLines ls n = some xs) : n ∈ ls.map Prod.fst :=
  List.mem_map.mpr ⟨(n, xs), lookupLines_mem ls h, rfl⟩

theorem lookupLines_isSome_iff (ls : Lines) (n : String) :
    (lookupLines ls n).isSome ↔ n ∈ ls.map Prod.fst := by
  induction ls with
  | nil => simp [lookupLines_nil]
  | cons p ps ih =>
    by_cases hp : p.1 = n
    · subst hp; simp [lookupLines_cons]
    · simp [lookupLines_cons, hp, Ne.symm hp, ih]

theorem lookupLines_foldl_appendTo (ns : List String) (ls : Lines) (x : issue) (m : String)
    (hnd : ns.Nodup) :
    lookupLines (ns.foldl (fun acc nm => appendTo acc nm x) ls) m
      = if m ∈ ns then (lookupLines ls m).map (fun xs => xs ++ [x]) else lookupLines ls m := by
  induction ns generalizing ls with
  | nil => simp
  | cons a as ih =>
    have hnd' : as.Nodup := hnd.of_cons
    rw [List.foldl_cons, ih _ hnd']
    by_cases hm : m = a
    · subst hm
      have hna : m ∉ as := (List.nodup_cons.mp hnd).1
      simp [hna, lookupLines_appendTo]
    · by_cases hmem : m ∈ as <;> simp [hm, hmem, lookupLines_appendTo, List.mem_cons]

theorem foldl_appendTo_keys (ns : List String) (ls : Lines) (x : issue) :
    ((ns.foldl (fun acc nm => appendTo acc nm x) ls).map Prod.fst) = ls.map Prod.fst := by
  induction ns generalizing ls with
  | nil => rfl
  | cons a as ih => rw [List.foldl_cons, ih, appendTo_keys]

/-! ### Except and bucket-operation lemmas -/

theorem exceptBind_ok {α β : Type _} (a : α) (f : α → Except Err β) :
    (Except.ok a >>= f) = f a := rfl

theorem exceptBind_error {α β : Type _} (e : Err) (f : α → Except Err β) :
    ((Except.error e : Except Err α) >>= f) = Except.error e := rfl

theorem lookupLines_setBucket_isSome (ls : Lines) (n : String) (v : List issue) (m : String)
    (hs : (lookupLines ls m).isSome) : (lookupLines (setBucket ls n v) m).isSome := by
  by_cases h : m = n
  · subst h; rw [lookupLines_setBucket_self]; rfl
  · rw [lookupLines_setBucket_ne _ _ h]; exact hs

theorem condRemove_eq (ls : Lines) (name : String) (x : issue) (xs : List issue)
    (h : lookupLines ls name = some xs) :
    condRemove ls name x = .ok (if x ∈ xs then setBucket ls name (xs.erase x) else ls) := by
  simp [condRemove, h]

theorem removeStrict_eq_of_mem (ls : Lines) (name : String) (x : issue) (xs : List issue)
    (h : lookupLines ls name = some xs) (hx : x ∈ xs) :
    removeStrict ls name x = .ok (setBucket ls name (xs.erase x)) := by
  simp [removeStrict, h, hx]

theorem removeStrict_eq_of_not_mem (ls : Lines) (name : String) (x : issue) (xs : List issue)
    (h : lookupLines ls name = some xs) (hx : x ∉ xs) :
    removeStrict ls name x = .error (.removeMissing name) := by
  simp [removeStrict, h, hx]

/-! ### Scenario theorems -/

/-- C3 (counterexample): on the chronological stream [non-major bug #1,
implicit release "1.0" of 2020-01-01], after the release is processed there
is no bucket named "1.0" at all — the release creates the bucket named by
the derived line, "1" — so issue #1 is not a member of a bucket named
"1.0", contrary to the claim. -/
theorem C3_counterexample :
    s1.reverse.foldlM processRecord pInit = .ok c3state ∧
    lookupLines c3state.lines "1.0" = none ∧
    ¬ ∃ xs, lookupLines c3state.lines "1.0" = some xs ∧ bug1d ∈ xs := by
  refine ⟨by decide, by decide, ?_⟩
  rintro ⟨xs, h, -⟩
  rw [show lookupLines c3state.lines "1.0" = none by decide] at h
  exact Option.noConfusion h

/-- C3 (amended): the stream [non-major bug #1, implicit release "1.0" of
2020-01-01] yields exactly one authored Release "1.0" with an empty entry
list, and after that release is processed issue #1 is a member of
`unreleased_bugfix` only: the bucket the release creates is named "1" (the
derived line) and is empty, and no bucket named "1.0" exists. -/
theorem C3_thm :
    construct_releases sampleConfig s1 = .ok [⟨rel10, []⟩, fauxBugfix [bug1d], fauxFeature []] ∧
    s1.reverse.foldlM processRecord pInit = .ok c3state ∧
    lookupLines c3state.lines "unreleased_bugfix" = some [bug1d] ∧
    lookupLines c3state.lines "1" = some [] ∧
    lookupLines c3state.lines "1.0" = none := by
  refine ⟨by decide, by decide, by decide, by decide, by decide⟩

/-- C4 (counterexample): for the stream [feature #2, implicit release
"1.0"] no bucket named "1.0" is ever created — the new bucket is named "1",
the derived line of version "1.0". -/
theorem C4_counterexample :
    s2.reverse.foldlM processRecord pInit = .ok c4state ∧
    lookupLines c4state.lines "1.0" = none ∧
    ¬ lookupLines c4state.lines "1.0" = some [] ∧
    lookupLines c4state.lines "1" = some [] := by
  refine ⟨by decide, by decide, by decide, by decide⟩

/-- C5 (counterexample): in the stream [feature #2, release "1.0", bug #3
with minLine "1.0", release "1.0" of 2020-02-01] the second authored
Release "1.0" is empty — it does not contain bug #3 — and #3 is never
removed from `unreleased_bugfix` (it surfaces in the trailing bugfix
faux-release). -/
theorem C5_counterexample :
    construct_releases sampleConfig s3 =
      .ok [⟨rel10, [feat2d]⟩, ⟨rel10b, []⟩, fauxBugfix [bug3d], fauxFeature []] ∧
    ¬ ((([(⟨rel10, [feat2d]⟩ : ReleaseEntry), ⟨rel10b, []⟩, fauxBugfix [bug3d],
          fauxFeature []]).get? 1).map ReleaseEntry.entries = some [bug3d]) := by
  refine ⟨by decide, by decide⟩

/-- C5 (amended): bug #3's minimum line "1.0" excludes the derived line
bucket "1" from its fan-out (`LooseVersion("1") < LooseVersion("1.0")`), so
#3 only ever sits in `unreleased_bugfix`: the second Release "1.0" is
empty, bucket "1" ends up empty, and #3 remains in `unreleased_bugfix`. -/
theorem C5_thm :
    construct_releases sampleConfig s3 =
      .ok [⟨rel10, [feat2d]⟩, ⟨rel10b, []⟩, fauxBugfix [bug3d], fauxFeature []] ∧
    s3.reverse.foldlM processRecord pInit = .ok c5state ∧
    lookupLines c5state.lines "1" = some [] ∧
    lookupLines c5state.lines "unreleased_bugfix" = some [bug3d] ∧
    looseVersionGe "1" "1.0" = false := by
  refine ⟨by decide, by decide, by decide, by decide, by decide⟩

/-- C7: with two nested issue references in one description the single-pass
slice substitution misplaces the second fragment — it is spliced into the
middle of the first reference's expansion — and the second reference node
itself is left unexpanded in the output, contradicting in-place
substitution "for any number of embedded issue references"; with a single
reference the substitution is positionally correct. -/
theorem C7_thm :
    expandIssueRefs [Node.issueRef nlA, Node.issueRef nlB]
        = [a1, b1, b2, b3, a3, Node.issueRef nlB] ∧
    expandIssueRefs [Node.issueRef nlA, Node.issueRef nlB] ≠ nlA ++ nlB ∧
    Node.issueRef nlB ∈ expandIssueRefs [Node.issueRef nlA, Node.issueRef nlB] ∧
    expandIssueRefs [a1, Node.issueRef nlB, a2] = [a1, b1, b2, b3, a2] ∧
    assembleEntry entryC7 =
      Node.elem "list_item" ""
        [Node.elem "paragraph" "" [a1, b1, b2, b3, a3, Node.issueRef nlB]] := by
  refine ⟨by decide, by decide, by decide, by decide, by decide⟩

/-- C1 (counterexample): a major bug resolved by an explicit release while
absent from `unreleased_feature` raises (`list.remove` on a missing
element): release "1.1.0" lists #5 after release "1.0.0" has already
removed it, and the whole run aborts. -/
theorem C1_counterexample :
    construct_releases sampleConfig
      [Record.rel rel110 (some "5"), Record.rel rel100 (some "5"), Record.item bug5 rest5]
      = .error (.removeMissing "unreleased_feature") := by
  decide

/-- C6 (counterexample): the explicit release "1.0.0" listing "5, 5" — both
entries resolvable, so no listed number is missing from the registry —
still raises, because the second removal of #5 from `unreleased_feature`
hits an absent element; the raised error is not the missing-issues
error. -/
theorem C6_counterexample :
    construct_releases sampleConfig [Record.rel rel100 (some "5, 5"), Record.item bug5 rest5]
      = .error (.removeMissing "unreleased_feature") ∧
    ([Record.item bug5 rest5].reverse.foldlM processRecord pInit).map
        (fun st => (lookupIssues st.issues (some "5")).isSome) = .ok true ∧
    ∀ ns, (Err.removeMissing "unreleased_feature") ≠ Err.missingIssues ns := by
  refine ⟨by decide, by decide, ?_⟩
  intro ns h
  exact Err.noConfusion h

/-- C8 (counterexample): `construct_nodes` does mutate a release produced
by the partitioner: for a non-empty release the assembled bullet list is
appended into `obj['nodelist'][0]`, so the marker's nodelist differs after
assembly. -/
theorem C8_counterexample :
    (construct_nodes [relC8]).2.map (fun d => d.obj.nodelist) ≠ [relC8.obj.nodelist] := by
  decide

theorem exceptPure {α : Type _} (a : α) : (pure a : Except Err α) = .ok a := rfl

/-- C9: after the record stream is exhausted, `construct_releases` returns
every authored release followed by exactly two trailing faux-releases —
`unreleased_bugfix` then `unreleased_feature` — each with a dateless marker
and the sentinel bucket's remaining contents as entries. -/
theorem C9_thm (config : Config) (records : List Record) (st : PState)
    (bfl ffl : List issue)
    (h : records.reverse.foldlM processRecord pInit = .ok st)
    (hb : lookupLines st.lines "unreleased_bugfix" = some bfl)
    (hf : lookupLines st.lines "unreleased_feature" = some ffl) :
    construct_releases config records = .ok (st.releases ++
      [⟨⟨"unreleased_bugfix", none,
          [release_nodes (pyFormatS "Next %s release" "bugfix") "master" none config]⟩, bfl⟩,
       ⟨⟨"unreleased_feature", none,
          [release_nodes (pyFormatS "Next %s release" "feature") "master" none config]⟩, ffl⟩]) := by
  have e1 : ("unreleased_" ++ "bugfix" : String) = "unreleased_bugfix" := rfl
  have e2 : ("unreleased_" ++ "feature" : String) = "unreleased_feature" := rfl
  simp only [construct_releases, fauxRelease, getBucket, h, e1, e2, hb, hf,
    exceptBind_ok, exceptPure]

/-- Witness for C9 at the empty record stream. -/
theorem C9_witness :
    construct_releases sampleConfig [] = .ok [fauxBugfix [], fauxFeature []] := by
  have := C9_thm sampleConfig [] pInit [] [] rfl rfl rfl
  simpa [fauxBugfix, fauxFeature, pInit] using this

/-- C1 (amended): the removals the source guards with a membership test are
genuinely "remove if present": for a non-major bug resolved by an explicit
release, cleanup succeeds whenever `unreleased_bugfix` and the release
line's bucket exist, even if the issue is absent from both; likewise the
guarded removal from `unreleased_bugfix` (also used by the implicit bugfix
release) never fails when that bucket exists.  (The unguarded
`list.remove` calls for major bugs and feature/support issues do raise when
the issue is absent — see the counterexample.) -/
theorem C1_thm (ls : Lines) (line : String) (obj x : issue)
    (h1 : (lookupLines ls "unreleased_bugfix").isSome)
    (h2 : (lookupLines ls line).isSome)
    (hb : obj.type_ = "bug") (hm : obj.major = false) :
    (∃ ls', removeFromBuckets ls line obj = .ok ls') ∧
    (∃ ls', condRemove ls "unreleased_bugfix" x = .ok ls') := by
  obtain ⟨ub, hub⟩ := Option.isSome_iff_exists.mp h1
  obtain ⟨lb, hlb⟩ := Option.isSome_iff_exists.mp h2
  constructor
  · simp only [removeFromBuckets, hb, hm, if_true, Bool.false_eq_true, if_false, reduceIte]
    rw [condRemove_eq ls _ obj ub hub, exceptBind_ok]
    by_cases hmem : obj ∈ ub
    · rw [if_pos hmem]
      have h2' : (lookupLines (setBucket ls "unreleased_bugfix" (ub.erase obj)) line).isSome :=
        lookupLines_setBucket_isSome _ _ _ _ h2
      obtain ⟨lb', hlb'⟩ := Option.isSome_iff_exists.mp h2'
      exact ⟨_, condRemove_eq _ _ _ lb' hlb'⟩
    · rw [if_neg hmem]
      exact ⟨_, condRemove_eq _ _ _ lb hlb⟩
  · exact ⟨_, condRemove_eq _ _ _ ub hub⟩

/-- Witness for C1: the non-major bug #1 is absent from every bucket of
`exLines`, yet both cleanup removals succeed. -/
theorem C1_witness :
    ((lookupLines exLines "unreleased_bugfix").isSome ∧
     (lookupLines exLines "1.1").isSome ∧
     bug1d.type_ = "bug" ∧ bug1d.major = false) ∧
    ((∃ ls', removeFromBuckets exLines "1.1" bug1d = .ok ls') ∧
     (∃ ls', condRemove exLines "unreleased_bugfix" bug1d = .ok ls')) :=
  ⟨⟨by decide, by decide, by decide, by decide⟩,
   C1_thm exLines "1.1" bug1d bug1d (by decide) (by decide) (by decide) (by decide)⟩

theorem assembleStep_snd (acc : List Node × List ReleaseEntry) (d : ReleaseEntry) :
    (assembleStep acc d).2 = acc.2 ++ [assembledRelease d] := by
  by_cases h : d.entries = [] <;> simp [assembleStep, assembledRelease, h]

theorem foldl_assembleStep_snd (l : List ReleaseEntry) (acc : List Node × List ReleaseEntry) :
    (l.foldl assembleStep acc).2 = acc.2 ++ l.map assembledRelease := by
  induction l generalizing acc with
  | nil => simp
  | cons d ds ih =>
    rw [List.foldl_cons, ih, assembleStep_snd]
    simp

theorem construct_nodes_snd (rs : List ReleaseEntry) :
    (construct_nodes rs).2 = rs.map assembledRelease := by
  simp only [construct_nodes]
  rw [foldl_assembleStep_snd]
  simp [List.map_reverse]

/-- C8 (amended): `construct_nodes` keeps the release records in place —
same count and order, same entry lists, same marker number and date; a
release with an empty entry list is untouched — but for a non-empty
release it does mutate the marker's nodelist: the assembled bullet list of
the entries is appended as a child of its first node. -/
theorem C8_thm (rs : List ReleaseEntry) (k : Nat) (d : ReleaseEntry)
    (h : rs.get? k = some d) :
    ∃ d', (construct_nodes rs).2.get? k = some d' ∧
      d'.entries = d.entries ∧
      d'.obj.number = d.obj.number ∧
      d'.obj.date = d.obj.date ∧
      (d.entries = [] → d' = d) ∧
      (d.entries ≠ [] → ∀ n0 ns, d.obj.nodelist = n0 :: ns →
        d'.obj.nodelist =
          appendChildNode n0 (Node.elem "bullet_list" "" (d.entries.map assembleEntry)) :: ns) := by
  refine ⟨assembledRelease d, ?_, ?_, ?_, ?_, ?_, ?_⟩
  · rw [construct_nodes_snd, List.get?_map, h]; rfl
  · by_cases he : d.entries = [] <;> simp [assembledRelease, he]
  · by_cases he : d.entries = [] <;> simp [assembledRelease, he]
  · by_cases he : d.entries = [] <;> simp [assembledRelease, he]
  · intro he; simp [assembledRelease, he]
  · intro he n0 ns hn
    simp [assembledRelease, he, hn]

/-- Witness for C8 on the one-release list `[relC8]`. -/
theorem C8_witness :
    ([relC8].get? 0 = some relC8) ∧
    (∃ d', (construct_nodes [relC8]).2.get? 0 = some d' ∧
      d'.entries = relC8.entries ∧
      d'.obj.number = relC8.obj.number ∧
      d'.obj.date = relC8.obj.date ∧
      (relC8.entries = [] → d' = relC8) ∧
      (relC8.entries ≠ [] → ∀ n0 ns, relC8.obj.nodelist = n0 :: ns →
        d'.obj.nodelist =
          appendChildNode n0 (Node.elem "bullet_list" "" (relC8.entries.map assembleEntry)) :: ns)) :=
  ⟨rfl, C8_thm [relC8] 0 relC8 rfl⟩

/-- C4 (amended): an implicit release whose derived line has no bucket yet
emits a release holding exactly the `unreleased_feature` issues that are
features, supports, or major bugs, in bucket order; it creates the derived
line's bucket empty — for release "1.0" that bucket is named "1", not
"1.0" — clears `unreleased_feature`, and touches nothing else. -/
theorem C4_thm (st : PState) (focus : release) (ufl : List issue)
    (h1 : lookupLines st.lines (get_line focus) = none)
    (h2 : lookupLines st.lines "unreleased_feature" = some ufl)
    (hty : ∀ x ∈ ufl, x.type_ = "bug" ∨ x.type_ = "feature" ∨ x.type_ = "support") :
    ∃ st', processRecord st (.rel focus none) = .ok st' ∧
      st'.releases = st.releases ++
        [⟨focus, ufl.filter (fun x => x.type_ = "feature" || x.type_ = "support" ||
            (x.type_ = "bug" && x.major))⟩] ∧
      lookupLines st'.lines (get_line focus) = some [] ∧
      lookupLines st'.lines "unreleased_feature" = some [] ∧
      (∀ name, name ≠ get_line focus → name ≠ "unreleased_feature" →
        lookupLines st'.lines name = lookupLines st.lines name) ∧
      st'.issues = st.issues := by
  have hlin : get_line focus ≠ "unreleased_feature" := by
    intro hh; rw [hh, h2] at h1; exact Option.noConfusion h1
  have hluf : lookupLines (setBucket st.lines (get_line focus) []) "unreleased_feature"
      = some ufl := by
    rw [lookupLines_setBucket_ne _ _ (Ne.symm hlin)]
    exact h2
  have hfilters : ufl.filter (fun x => x.type_ = "feature" || x.type_ = "support" || x.major)
      = ufl.filter (fun x => x.type_ = "feature" || x.type_ = "support" ||
          (x.type_ = "bug" && x.major)) := by
    apply List.filter_congr
    intro x hx
    rcases hty x hx with h | h | h <;> simp [h]
  refine ⟨⟨st.releases ++
      [⟨focus, ufl.filter (fun x => x.type_ = "feature" || x.type_ = "support" ||
          (x.type_ = "bug" && x.major))⟩],
      setBucket (setBucket st.lines (get_line focus) []) "unreleased_feature" [],
      st.issues⟩, ?_, rfl, ?_, ?_, ?_, rfl⟩
  · simp only [processRecord, Option.map_none', implicitRelease, h1, Option.isNone_none,
      if_true, hluf, hfilters]
  · rw [lookupLines_setBucket_ne _ _ hlin, lookupLines_setBucket_self]
  · rw [lookupLines_setBucket_self]
  · intro name hn1 hn2
    rw [lookupLines_setBucket_ne _ _ hn2, lookupLines_setBucket_ne _ _ hn1]

/-- Witness for C4: the release "1.0" right after feature #2 was filed. -/
theorem C4_witness :
    (lookupLines c4pre.lines (get_line rel10) = none ∧
     lookupLines c4pre.lines "unreleased_feature" = some [feat2d] ∧
     (∀ x ∈ [feat2d], x.type_ = "bug" ∨ x.type_ = "feature" ∨ x.type_ = "support")) ∧
    (∃ st', processRecord c4pre (.rel rel10 none) = .ok st' ∧
      st'.releases = c4pre.releases ++
        [⟨rel10, [feat2d].filter (fun x => x.type_ = "feature" || x.type_ = "support" ||
            (x.type_ = "bug" && x.major))⟩] ∧
      lookupLines st'.lines (get_line rel10) = some [] ∧
      lookupLines st'.lines "unreleased_feature" = some [] ∧
      (∀ name, name ≠ get_line rel10 → name ≠ "unreleased_feature" →
        lookupLines st'.lines name = lookupLines c4pre.lines name) ∧
      st'.issues = c4pre.issues) :=
  ⟨⟨by decide, by decide, by decide⟩,
   C4_thm c4pre rel10 [feat2d] (by decide) (by decide) (by decide)⟩

/-- C2: a non-major bug with a minimum line set is appended to exactly the
currently-existing buckets whose name compares `>=` the minimum under
`LooseVersion` (numeric component-wise: "1.10" qualifies for "1.3", "1.2"
does not) plus `unreleased_bugfix`; it is never appended to
`unreleased_feature`, no bucket is created or removed, and no release is
emitted. -/
theorem C2_thm (st : PState) (focus : issue) (rest : List Node) (ml : String)
    (hnd : (st.lines.map Prod.fst).Nodup)
    (hb : focus.type_ = "bug") (hm : focus.major = false) (hl : focus.line = some ml)
    (hfresh : ∀ n, focus.number = some n → lookupIssues st.issues (some n) = none) :
    ∃ st', processRecord st (.item focus rest) = .ok st' ∧
      st'.releases = st.releases ∧
      st'.lines.map Prod.fst = st.lines.map Prod.fst ∧
      (∀ name xs, lookupLines st.lines name = some xs →
        lookupLines st'.lines name = some
          (if name = "unreleased_bugfix"
              ∨ (name ≠ "unreleased_feature" ∧ name ≠ "unreleased_bugfix"
                  ∧ looseVersionGe name ml = true)
            then xs ++ [{ focus with description := rest }] else xs)) ∧
      looseVersionGe "1.10" "1.3" = true ∧ looseVersionGe "1.2" "1.3" = false := by
  have hb2 : ({ focus with description := rest }).type_ = "bug" := hb
  have hm2 : ({ focus with description := rest }).major = false := hm
  have hl2 : ({ focus with description := rest }).line = some ml := hl
  have hcls : classifyIssue st.lines { focus with description := rest }
      = ((((st.lines.map Prod.fst).filter (fun x => x ≠ "unreleased_feature")).filter
            (fun x => x ≠ "unreleased_bugfix" && looseVersionGe x ml))
          ++ ["unreleased_bugfix"]).foldl
          (fun acc nm => appendTo acc nm { focus with description := rest }) st.lines := by
    simp only [classifyIssue, hb, hm, hl, hb2, hm2, hl2, if_true, Bool.false_eq_true,
      if_false, reduceIte]
  have hnd2 : (((((st.lines.map Prod.fst).filter (fun x => x ≠ "unreleased_feature")).filter
        (fun x => x ≠ "unreleased_bugfix" && looseVersionGe x ml))
      ++ ["unreleased_bugfix"]) : List String).Nodup := by
    refine List.Nodup.append ((hnd.filter _).filter _) (List.nodup_singleton _) ?_
    intro x hx hx2
    rw [List.mem_singleton] at hx2
    subst hx2
    have hcond := List.of_mem_filter hx
    rw [Bool.and_eq_true, decide_eq_true_eq] at hcond
    exact hcond.1 rfl
  have hreg : ∃ is', registerIssue st.issues { focus with description := rest } = .ok is' := by
    cases hn : focus.number with
    | none =>
      have hn2 : ({ focus with description := rest }).number = none := hn
      exact ⟨setIssue st.issues none { focus with description := rest },
        by simp [registerIssue, hn2, hn]⟩
    | some n =>
      have hn2 : ({ focus with description := rest }).number = some n := hn
      have hfn := hfresh n hn
      exact ⟨setIssue st.issues (some n) { focus with description := rest },
        by simp [registerIssue, hn2, hfn, hn]⟩
  obtain ⟨is', hreg⟩ := hreg
  refine ⟨⟨st.releases, classifyIssue st.lines { focus with description := rest }, is'⟩,
    ?_, rfl, ?_, ?_, by decide, by decide⟩
  · simp only [processRecord, processIssue, hreg, exceptBind_ok, exceptPure]
  · rw [hcls, foldl_appendTo_keys]
  · intro name xs hx
    have hkeys : name ∈ st.lines.map Prod.fst := mem_keys_of_lookupLines _ hx
    have hmem : name ∈ ((((st.lines.map Prod.fst).filter (fun x => x ≠ "unreleased_feature")).filter
          (fun x => x ≠ "unreleased_bugfix" && looseVersionGe x ml))
        ++ ["unreleased_bugfix"])
        ↔ (name = "unreleased_bugfix"
            ∨ (name ≠ "unreleased_feature" ∧ name ≠ "unreleased_bugfix"
                ∧ looseVersionGe name ml = true)) := by
      rw [List.mem_append, List.mem_singleton]
      constructor
      · rintro (hin | hub)
        · right
          have h1 := List.of_mem_filter hin
          rw [Bool.and_eq_true, decide_eq_true_eq] at h1
          have h2 := List.of_mem_filter (List.mem_of_mem_filter hin)
          rw [decide_eq_true_eq] at h2
          exact ⟨h2, h1.1, h1.2⟩
        · exact Or.inl hub
      · rintro (hub | ⟨hf, hb', hg⟩)
        · exact Or.inr hub
        · left
          refine List.mem_filter.mpr ⟨List.mem_filter.mpr ⟨hkeys, ?_⟩, ?_⟩
          · exact decide_eq_true hf
          · rw [Bool.and_eq_true, decide_eq_true_eq]
            exact ⟨hb', hg⟩
    simp only [hcls]
    rw [lookupLines_foldl_appendTo _ _ _ _ hnd2]
    by_cases hcond : name = "unreleased_bugfix"
        ∨ (name ≠ "unreleased_feature" ∧ name ≠ "unreleased_bugfix"
            ∧ looseVersionGe name ml = true)
    · rw [if_pos (hmem.mpr hcond), if_pos hcond, hx]
      rfl
    · rw [if_neg (fun hh => hcond (hmem.mp hh)), if_neg hcond]
      exact hx

/-- Witness for C2: bug #7 (`1.3+`) lands in "1.10" and `unreleased_bugfix`
but not in "1.2" or `unreleased_feature`. -/
theorem C2_witness :
    ((c2pre.lines.map Prod.fst).Nodup ∧ bug7.type_ = "bug" ∧ bug7.major = false ∧
     bug7.line = some "1.3") ∧
    (∃ st', processRecord c2pre (.item bug7 rest7) = .ok st' ∧
      st'.releases = c2pre.releases ∧
      st'.lines.map Prod.fst = c2pre.lines.map Prod.fst ∧
      (∀ name xs, lookupLines c2pre.lines name = some xs →
        lookupLines st'.lines name = some
          (if name = "unreleased_bugfix"
              ∨ (name ≠ "unreleased_feature" ∧ name ≠ "unreleased_bugfix"
                  ∧ looseVersionGe name "1.3" = true)
            then xs ++ [{ bug7 with description := rest7 }] else xs)) ∧
      looseVersionGe "1.10" "1.3" = true ∧ looseVersionGe "1.2" "1.3" = false) :=
  ⟨⟨by decide, by decide, by decide, by decide⟩,
   C2_thm c2pre bug7 rest7 "1.3" (by decide) (by decide) (by decide) (by decide)
     (fun n h => by
       have h' : (some "7" : Option String) = some n := h
       injection h' with h2
       subst h2
       decide)⟩

theorem exceptThrow {α : Type _} (e : Err) : (throw e : Except Err α) = .error e := rfl

theorem removeStrict_ok_inv (ls ls' : Lines) (nm : String) (x : issue)
    (h : removeStrict ls nm x = .ok ls') :
    ∃ xs, lookupLines ls nm = some xs ∧ x ∈ xs ∧ ls' = setBucket ls nm (xs.erase x) := by
  unfold removeStrict at h
  cases hy : lookupLines ls nm with
  | none => rw [hy] at h; exact Except.noConfusion h
  | some xs =>
    rw [hy] at h
    have h2 : (if x ∈ xs then Except.ok (setBucket ls nm (xs.erase x))
        else Except.error (Err.removeMissing nm)) = Except.ok ls' := h
    by_cases hx : x ∈ xs
    · rw [if_pos hx] at h2
      injection h2 with h2
      exact ⟨xs, rfl, hx, h2.symm⟩
    · rw [if_neg hx] at h2; exact Except.noConfusion h2

theorem condRemove_ok_inv (ls ls' : Lines) (nm : String) (x : issue)
    (h : condRemove ls nm x = .ok ls') :
    ∃ xs, lookupLines ls nm = some xs ∧
      ls' = if x ∈ xs then setBucket ls nm (xs.erase x) else ls := by
  unfold condRemove at h
  cases hy : lookupLines ls nm with
  | none => rw [hy] at h; exact Except.noConfusion h
  | some xs =>
    rw [hy] at h
    have h2 : (Except.ok (if x ∈ xs then setBucket ls nm (xs.erase x) else ls)
        : Except Err Lines) = Except.ok ls' := h
    injection h2 with h2
    exact ⟨xs, rfl, h2.symm⟩

/-- Generic preservation of a predicate along an `Except`-valued fold. -/
theorem foldlM_preserve {α : Type _} (P : Lines → Prop) (f : Lines → α → Except Err Lines)
    (l : List α) (hf : ∀ ls a ls', a ∈ l → P ls → f ls a = .ok ls' → P ls') :
    ∀ (ls ls' : Lines), P ls → l.foldlM f ls = .ok ls' → P ls' := by
  induction l with
  | nil =>
    intro ls ls' hP h
    rw [List.foldlM_nil, exceptPure] at h
    injection h with h
    subst h
    exact hP
  | cons a as ih =>
    intro ls ls' hP h
    rw [List.foldlM_cons] at h
    cases h1 : f ls a with
    | error e => rw [h1, exceptBind_error] at h; exact Except.noConfusion h
    | ok ls1 =>
      rw [h1, exceptBind_ok] at h
      exact ih (fun ls2 b ls3 hb => hf ls2 b ls3 (List.mem_cons_of_mem a hb)) ls1 ls'
        (hf ls a ls1 (List.mem_cons_self a as) hP h1) h

theorem frame_refl (S : List issue) (ls : Lines) : FrameOutside S ls ls :=
  fun _ xs hx => ⟨xs, hx, fun _ _ => Iff.rfl⟩

theorem frame_trans {S : List issue} {ls1 ls2 ls3 : Lines}
    (h1 : FrameOutside S ls1 ls2) (h2 : FrameOutside S ls2 ls3) : FrameOutside S ls1 ls3 := by
  intro name xs hx
  obtain ⟨ys, hy, hmem1⟩ := h1 name xs hx
  obtain ⟨zs, hz, hmem2⟩ := h2 name ys hy
  exact ⟨zs, hz, fun i hi => (hmem2 i hi).trans (hmem1 i hi)⟩

theorem frame_setBucket_erase (S : List issue) (ls : Lines) (nm : String) (ys : List issue)
    (obj : issue) (hobj : obj ∈ S) (hy : lookupLines ls nm = some ys) :
    FrameOutside S ls (setBucket ls nm (ys.erase obj)) := by
  intro name xs hx
  by_cases h : name = nm
  · subst h
    refine ⟨ys.erase obj, lookupLines_setBucket_self _ _ _, ?_⟩
    intro i hi
    rw [hx] at hy
    injection hy with hyy
    subst hyy
    exact List.mem_erase_of_ne (fun he => hi (he ▸ hobj))
  · exact ⟨xs, by rw [lookupLines_setBucket_ne _ _ h]; exact hx, fun _ _ => Iff.rfl⟩

theorem condRemoveGet_frame (S : List issue) (ls : Lines) (nm : String) (x : issue)
    (hx : x ∈ S) : FrameOutside S ls (condRemoveGet ls nm x) := by
  unfold condRemoveGet
  cases hy : lookupLines ls nm with
  | none => exact frame_refl S ls
  | some xs =>
    show FrameOutside S ls (if x ∈ xs then setBucket ls nm (xs.erase x) else ls)
    by_cases hmem : x ∈ xs
    · rw [if_pos hmem]; exact frame_setBucket_erase S ls nm xs x hx hy
    · rw [if_neg hmem]; exact frame_refl S ls

theorem condRemove_frame (S : List issue) (ls ls' : Lines) (nm : String) (x : issue)
    (hx : x ∈ S) (h : condRemove ls nm x = .ok ls') : FrameOutside S ls ls' := by
  obtain ⟨xs, hy, hls'⟩ := condRemove_ok_inv _ _ _ _ h
  subst hls'
  by_cases hmem : x ∈ xs
  · rw [if_pos hmem]; exact frame_setBucket_erase S ls nm xs x hx hy
  · rw [if_neg hmem]; exact frame_refl S ls

theorem removeFromBuckets_frame (S : List issue) (ls ls' : Lines) (line : String) (obj : issue)
    (hobj : obj ∈ S) (h : removeFromBuckets ls line obj = .ok ls') :
    FrameOutside S ls ls' := by
  unfold removeFromBuckets at h
  by_cases hb : obj.type_ = "bug"
  · rw [if_pos hb] at h
    by_cases hm : obj.major = true
    · rw [if_pos hm] at h
      obtain ⟨xs, hy, hmem, hls'⟩ := removeStrict_ok_inv _ _ _ _ h
      subst hls'
      exact frame_setBucket_erase S ls _ xs obj hobj hy
    · rw [if_neg hm] at h
      cases h1 : condRemove ls "unreleased_bugfix" obj with
      | error e => rw [h1, exceptBind_error] at h; exact Except.noConfusion h
      | ok ls1 =>
        rw [h1, exceptBind_ok] at h
        exact frame_trans (condRemove_frame S ls ls1 _ obj hobj h1)
          (condRemove_frame S ls1 ls' line obj hobj h)
  · rw [if_neg hb] at h
    cases h1 : removeStrict ls "unreleased_feature" obj with
    | error e => rw [h1, exceptBind_error] at h; exact Except.noConfusion h
    | ok ls1 =>
      rw [h1, exceptBind_ok, exceptPure] at h
      injection h with h
      obtain ⟨xs, hy, hmem, hls1⟩ := removeStrict_ok_inv _ _ _ _ h1
      subst hls1
      rw [← h]
      exact frame_trans (frame_setBucket_erase S ls _ xs obj hobj hy)
        (condRemoveGet_frame S _ line obj hobj)

theorem noMajorOutside_appendTo (ls : Lines) (nm : String) (x : issue)
    (hls : noMajorOutside ls) (hx : x.major = false ∨ nm = "unreleased_feature") :
    noMajorOutside (appendTo ls nm x) := by
  intro p hp hne y hy
  obtain ⟨q, hq, hfq⟩ := List.mem_map.mp hp
  by_cases hqn : q.1 = nm
  · rw [if_pos hqn] at hfq
    subst hfq
    simp only at hne hy
    rcases List.mem_append.mp hy with hy2 | hy2
    · exact hls q hq hne y hy2
    · rw [List.mem_singleton] at hy2
      subst hy2
      rcases hx with h | h
      · exact h
      · exact absurd (hqn.trans h) hne
  · rw [if_neg hqn] at hfq
    subst hfq
    exact hls q hq hne y hy

theorem noMajorOutside_foldl_appendTo (ns : List String) (ls : Lines) (x : issue)
    (hls : noMajorOutside ls) (hx : x.major = false) :
    noMajorOutside (ns.foldl (fun acc nm => appendTo acc nm x) ls) := by
  induction ns generalizing ls with
  | nil => exact hls
  | cons a as ih => exact ih _ (noMajorOutside_appendTo ls a x hls (Or.inl hx))

theorem noMajorOutside_setBucket (ls : Lines) (nm : String) (v : List issue)
    (hls : noMajorOutside ls) (hv : (∀ y ∈ v, y.major = false) ∨ nm = "unreleased_feature") :
    noMajorOutside (setBucket ls nm v) := by
  intro p hp hne y hy
  unfold setBucket at hp
  by_cases hs : (lookupLines ls nm).isSome
  · rw [if_pos hs] at hp
    obtain ⟨q, hq, hfq⟩ := List.mem_map.mp hp
    by_cases hqn : q.1 = nm
    · rw [if_pos hqn] at hfq
      subst hfq
      simp only at hne hy
      rcases hv with h | h
      · exact h y hy
      · exact absurd (hqn.trans h) hne
    · rw [if_neg hqn] at hfq
      subst hfq
      exact hls q hq hne y hy
  · rw [if_neg hs] at hp
    rcases List.mem_append.mp hp with h | h
    · exact hls p h hne y hy
    · rw [List.mem_singleton] at h
      subst h
      simp only at hne hy
      rcases hv with h | h
      · exact h y hy
      · exact absurd h hne

theorem noMajorOutside_setBucket_erase (ls : Lines) (nm : String) (xs : List issue) (x : issue)
    (hls : noMajorOutside ls) (hy : lookupLines ls nm = some xs) :
    noMajorOutside (setBucket ls nm (xs.erase x)) := by
  apply noMajorOutside_setBucket ls nm _ hls
  by_cases hnm : nm = "unreleased_feature"
  · exact Or.inr hnm
  · left
    intro y hyy
    exact hls (nm, xs) (lookupLines_mem ls hy) hnm y (List.mem_of_mem_erase hyy)

theorem noMajorOutside_condRemove (ls ls' : Lines) (nm : String) (x : issue)
    (hls : noMajorOutside ls) (h : condRemove ls nm x = .ok ls') :
    noMajorOutside ls' := by
  obtain ⟨xs, hy, hls'⟩ := condRemove_ok_inv _ _ _ _ h
  subst hls'
  by_cases hmem : x ∈ xs
  · rw [if_pos hmem]; exact noMajorOutside_setBucket_erase ls nm xs x hls hy
  · rw [if_neg hmem]; exact hls

theorem noMajorOutside_condRemoveGet (ls : Lines) (nm : String) (x : issue)
    (hls : noMajorOutside ls) : noMajorOutside (condRemoveGet ls nm x) := by
  unfold condRemoveGet
  cases hy : lookupLines ls nm with
  | none => exact hls
  | some xs =>
    show noMajorOutside (if x ∈ xs then setBucket ls nm (xs.erase x) else ls)
    by_cases hmem : x ∈ xs
    · rw [if_pos hmem]; exact noMajorOutside_setBucket_erase ls nm xs x hls hy
    · rw [if_neg hmem]; exact hls

theorem noMajorOutside_removeFromBuckets (ls ls' : Lines) (line : String) (obj : issue)
    (hls : noMajorOutside ls) (h : removeFromBuckets ls line obj = .ok ls') :
    noMajorOutside ls' := by
  unfold removeFromBuckets at h
  by_cases hb : obj.type_ = "bug"
  · rw [if_pos hb] at h
    by_cases hm : obj.major = true
    · rw [if_pos hm] at h
      obtain ⟨xs, hy, hmem, hls'⟩ := removeStrict_ok_inv _ _ _ _ h
      subst hls'
      exact noMajorOutside_setBucket_erase ls _ xs obj hls hy
    · rw [if_neg hm] at h
      cases h1 : condRemove ls "unreleased_bugfix" obj with
      | error e => rw [h1, exceptBind_error] at h; exact Except.noConfusion h
      | ok ls1 =>
        rw [h1, exceptBind_ok] at h
        exact noMajorOutside_condRemove ls1 ls' line obj
          (noMajorOutside_condRemove ls ls1 _ obj hls h1) h
  · rw [if_neg hb] at h
    cases h1 : removeStrict ls "unreleased_feature" obj with
    | error e => rw [h1, exceptBind_error] at h; exact Except.noConfusion h
    | ok ls1 =>
      rw [h1, exceptBind_ok, exceptPure] at h
      injection h with h
      obtain ⟨xs, hy, hmem, hls1⟩ := removeStrict_ok_inv _ _ _ _ h1
      subst hls1
      rw [← h]
      exact noMajorOutside_condRemoveGet _ line obj
        (noMajorOutside_setBucket_erase ls _ xs obj hls hy)

theorem noMajorOutside_processIssue (st st' : PState) (focus : issue)
    (hw : focus.backported = true → focus.major = false)
    (hls : noMajorOutside st.lines)
    (h : processIssue st focus = .ok st') : noMajorOutside st'.lines := by
  unfold processIssue at h
  cases h1 : registerIssue st.issues focus with
  | error e => rw [h1, exceptBind_error] at h; exact Except.noConfusion h
  | ok is' =>
    rw [h1, exceptBind_ok, exceptPure] at h
    injection h with h
    subst h
    show noMajorOutside (classifyIssue st.lines focus)
    unfold classifyIssue
    by_cases hb : focus.type_ = "bug"
    · rw [if_pos hb]
      by_cases hm : focus.major = true

      · rw [if_pos hm]
        exact noMajorOutside_appendTo _ _ _ hls (Or.inr rfl)
      · rw [if_neg hm]
        have hm' : focus.major = false := by
          revert hm; cases focus.major <;> simp
        cases hl : focus.line with
        | some ml => exact noMajorOutside_foldl_appendTo _ _ _ hls hm'
        | none => exact noMajorOutside_foldl_appendTo _ _ _ hls hm'
    · rw [if_neg hb]
      by_cases hbk : focus.backported = true
      · rw [if_pos hbk]
        exact noMajorOutside_foldl_appendTo _ _ _ hls (hw hbk)
      · rw [if_neg hbk]
        exact noMajorOutside_appendTo _ _ _ hls (Or.inr rfl)

theorem noMajorOutside_implicitRelease (st st' : PState) (focus : release) (line : String)
    (hls : noMajorOutside st.lines) (h : implicitRelease st focus line = .ok st') :
    noMajorOutside st'.lines := by
  simp only [implicitRelease] at h
  by_cases hnone : (lookupLines st.lines line).isNone
  · rw [if_pos hnone] at h
    cases huf : lookupLines (setBucket st.lines line []) "unreleased_feature" with
    | none => rw [huf] at h; exact Except.noConfusion h
    | some unreleased =>
      rw [huf] at h
      have h2 : Except.ok
          (⟨st.releases ++ [⟨focus, unreleased.filter
              (fun x => x.type_ = "feature" || x.type_ = "support" || x.major)⟩],
            setBucket (setBucket st.lines line []) "unreleased_feature" [],
            st.issues⟩ : PState) = Except.ok st' := h
      injection h2 with h2
      subst h2
      apply noMajorOutside_setBucket _ _ _ _ (Or.inr rfl)
      exact noMajorOutside_setBucket _ _ _ hls
        (Or.inl (fun y hy => absurd hy (List.not_mem_nil y)))
  · rw [if_neg hnone] at h
    cases hb : getBucket st.lines line with
    | error e => rw [hb, exceptBind_error] at h; exact Except.noConfusion h
    | ok bucket =>
      rw [hb, exceptBind_ok] at h
      cases hf : (bucket.filter (fun x => !x.major)).foldlM
          (fun acc x => condRemove acc "unreleased_bugfix" x) (setBucket st.lines line []) with
      | error e => rw [hf, exceptBind_error] at h; exact Except.noConfusion h
      | ok ls2 =>
        rw [hf, exceptBind_ok, exceptPure] at h
        injection h with h
        subst h
        show noMajorOutside ls2
        have base : noMajorOutside (setBucket st.lines line []) :=
          noMajorOutside_setBucket _ _ _ hls
            (Or.inl (fun y hy => absurd hy (List.not_mem_nil y)))
        exact foldlM_preserve noMajorOutside
          (fun acc x => condRemove acc "unreleased_bugfix" x)
          (bucket.filter (fun x => !x.major))
          (fun ls a ls' _ hP h1 => noMajorOutside_condRemove ls ls' _ a hP h1)
          _ _ base hf

theorem noMajorOutside_explicitRelease (st st' : PState) (focus : release) (line : String)
    (ex : List String) (hls : noMajorOutside st.lines)
    (h : explicitRelease st focus line ex = .ok st') : noMajorOutside st'.lines := by
  simp only [explicitRelease] at h
  by_cases hmiss : ex.filter (fun i => (lookupIssues st.issues (some i)).isNone) ≠ []
  · rw [if_pos hmiss, exceptThrow, exceptBind_error] at h
    exact Except.noConfusion h
  · rw [if_neg hmiss, exceptPure, exceptBind_ok] at h
    cases hf : (ex.filterMap (fun i => lookupIssues st.issues (some i))).foldlM
        (fun acc obj => removeFromBuckets acc line obj) st.lines with
    | error e => rw [hf, exceptBind_error] at h; exact Except.noConfusion h
    | ok ls2 =>
      rw [hf, exceptBind_ok, exceptPure] at h
      injection h with h
      subst h
      show noMajorOutside ls2
      exact foldlM_preserve noMajorOutside
        (fun acc obj => removeFromBuckets acc line obj)
        (ex.filterMap (fun i => lookupIssues st.issues (some i)))
        (fun ls a ls' _ hP h1 => noMajorOutside_removeFromBuckets ls ls' line a hP h1)
        _ _ hls hf

theorem noMajorOutside_processRecord (st st' : PState) (r : Record)
    (hw : wellFormedRecord r) (hls : noMajorOutside st.lines)
    (h : processRecord st r = .ok st') : noMajorOutside st'.lines := by
  cases r with
  | rel focus rest =>
    simp only [processRecord] at h
    cases rest with
    | none =>
      simp only [Option.map_none'] at h
      exact noMajorOutside_implicitRelease _ _ _ _ hls h
    | some s =>
      simp only [Option.map_some'] at h
      by_cases hne : ((pySplit s ',').map pyStrip) ≠ []
      · rw [if_pos hne] at h
        exact noMajorOutside_explicitRelease _ _ _ _ _ hls h
      · rw [if_neg hne] at h
        exact noMajorOutside_implicitRelease _ _ _ _ hls h
  | item focus rest =>
    simp only [processRecord] at h
    exact noMajorOutside_processIssue st st' { focus with description := rest } hw hls h
  | plain node =>
    simp only [processRecord] at h
    exact noMajorOutside_processIssue _ _ _ (fun _ => rfl) hls h

/-- C10: the partitioner-state invariant — a major issue (in particular a
major bug) is never a member of any bucket other than
`unreleased_feature` — is preserved by every processing step on
parser-producible records, and under it the `major` filter applied when an
implicit bugfix release empties a line bucket excludes nothing. -/
theorem C10_thm (st st' : PState) (r : Record)
    (hw : wellFormedRecord r) (hInv : noMajorOutside st.lines)
    (h : processRecord st r = .ok st') :
    noMajorOutside st'.lines ∧
    (∀ p ∈ st'.lines, p.1 ≠ "unreleased_feature" →
      ∀ x ∈ p.2, ¬(x.type_ = "bug" ∧ x.major = true)) ∧
    (∀ name xs, name ≠ "unreleased_feature" → lookupLines st'.lines name = some xs →
      xs.filter (fun x => !x.major) = xs) := by
  have hpres := noMajorOutside_processRecord st st' r hw hInv h
  refine ⟨hpres, ?_, ?_⟩
  · intro p hp hne x hx hmaj
    rw [hpres p hp hne x hx] at hmaj
    exact Bool.noConfusion hmaj.2
  · intro name xs hn hx
    have hall : ∀ x ∈ xs, x.major = false :=
      fun x hxx => hpres (name, xs) (lookupLines_mem _ hx) hn x hxx
    apply List.filter_eq_self.mpr
    intro a ha
    simp [hall a ha]

/-- Witness for C10: filing bug #1 from the initial state preserves the
invariant, and the bugfix-release filter keeps `unreleased_bugfix` as is. -/
theorem C10_witness :
    (wellFormedRecord (Record.item bug1 rest1) ∧ noMajorOutside pInit.lines ∧
     processRecord pInit (Record.item bug1 rest1) = .ok c10post) ∧
    (noMajorOutside c10post.lines ∧
     (∀ p ∈ c10post.lines, p.1 ≠ "unreleased_feature" →
       ∀ x ∈ p.2, ¬(x.type_ = "bug" ∧ x.major = true)) ∧
     (∀ name xs, name ≠ "unreleased_feature" → lookupLines c10post.lines name = some xs →
       xs.filter (fun x => !x.major) = xs)) := by
  have hInv : noMajorOutside pInit.lines := by
    intro p hp hne y hy
    cases hp with
    | head => exact absurd hy (List.not_mem_nil y)
    | tail _ hp2 =>
      cases hp2 with
      | head => exact absurd hy (List.not_mem_nil y)
      | tail _ hp3 => cases hp3
  exact ⟨⟨fun _ => rfl, hInv, by decide⟩,
    C10_thm pInit c10post (Record.item bug1 rest1) (fun _ => rfl) hInv (by decide)⟩

/-- C6 (amended): for an explicit release the resolution stage raises the
missing-issues error, reporting the full missing set, whenever some listed
number is unregistered; whenever the marker is processed successfully the
emitted release carries exactly the resolved issues in the authored order
of the explicit list (regardless of bucket state), the registry is
unchanged, and every issue not listed keeps all its bucket memberships.
(The claim's "iff" fails: the bucket cleanup can raise even when every
listed number resolves — see the counterexample.) -/
theorem C6_thm (st : PState) (focus : release) (s : String) (ex : List String)
    (hex : ex = (pySplit s ',').map pyStrip) (hne : ex ≠ []) :
    (ex.filter (fun i => (lookupIssues st.issues (some i)).isNone) ≠ [] →
      processRecord st (.rel focus (some s)) =
        .error (.missingIssues
          (ex.filter (fun i => (lookupIssues st.issues (some i)).isNone)))) ∧
    (∀ st', processRecord st (.rel focus (some s)) = .ok st' →
      st'.releases = st.releases ++
        [⟨focus, ex.filterMap (fun i => lookupIssues st.issues (some i))⟩] ∧
      st'.issues = st.issues ∧
      FrameOutside (ex.filterMap (fun i => lookupIssues st.issues (some i)))
        st.lines st'.lines) := by
  have hstep : processRecord st (.rel focus (some s)) =
      if ex ≠ [] then explicitRelease st focus (get_line focus) ex
      else implicitRelease st focus (get_line focus) := by
    simp only [processRecord, Option.map_some', ← hex]
  constructor
  · intro hmiss
    rw [hstep, if_pos hne]
    simp only [explicitRelease]
    rw [if_pos hmiss, exceptThrow, exceptBind_error]
  · intro st' hok
    rw [hstep, if_pos hne] at hok
    simp only [explicitRelease] at hok
    by_cases hmiss : ex.filter (fun i => (lookupIssues st.issues (some i)).isNone) ≠ []
    · rw [if_pos hmiss, exceptThrow, exceptBind_error] at hok
      exact Except.noConfusion hok
    · rw [if_neg hmiss, exceptPure, exceptBind_ok] at hok
      cases hf : (ex.filterMap (fun i => lookupIssues st.issues (some i))).foldlM
          (fun acc obj => removeFromBuckets acc (get_line focus) obj) st.lines with
      | error e => rw [hf, exceptBind_error] at hok; exact Except.noConfusion hok
      | ok ls2 =>
        rw [hf, exceptBind_ok, exceptPure] at hok
        injection hok with hok
        subst hok
        refine ⟨rfl, rfl, ?_⟩
        exact foldlM_preserve
          (FrameOutside (ex.filterMap (fun i => lookupIssues st.issues (some i))) st.lines)
          (fun acc obj => removeFromBuckets acc (get_line focus) obj)
          (ex.filterMap (fun i => lookupIssues st.issues (some i)))
          (fun ls a ls' ha hP h1 =>
            frame_trans hP (removeFromBuckets_frame _ ls ls' _ a ha h1))
          st.lines ls2 (frame_refl _ _) hf

/-- Witness for C6: the explicit release "1.0" listing issue "6" against the
state `c6pre`. -/
theorem C6_witness :
    ((["6"] : List String) = (pySplit "6" ',').map pyStrip ∧ (["6"] : List String) ≠ []) ∧
    ((["6"].filter (fun i => (lookupIssues c6pre.issues (some i)).isNone) ≠ [] →
      processRecord c6pre (.rel rel10 (some "6")) =
        .error (.missingIssues
          (["6"].filter (fun i => (lookupIssues c6pre.issues (some i)).isNone)))) ∧
    (∀ st', processRecord c6pre (.rel rel10 (some "6")) = .ok st' →
      st'.releases = c6pre.releases ++
        [⟨rel10, ["6"].filterMap (fun i => lookupIssues c6pre.issues (some i))⟩] ∧
      st'.issues = c6pre.issues ∧
      FrameOutside (["6"].filterMap (fun i => lookupIssues c6pre.issues (some i)))
        c6pre.lines st'.lines)) :=
  ⟨⟨by decide, by decide⟩,
   C6_thm c6pre rel10 "6" ["6"] (by decide) (by decide)⟩

end Releases
